import Mathlib

/-! Verification development for the gdriver path/folder layer.

The definitions below are a shallow embedding of the Go sources
(gdriver.go, fileinfo.go and the unnamed file holding the streaming
file handles).  The Google Drive backing store is modelled as an
explicit state: a flat list of nodes (id, name, parent ids, kind,
trashed flag) together with a fresh-id counter and a set of node ids
whose `Files.Update` call is made to fail (failure injection for the
error-propagation claims).  The store queries issued by the Go code
("'pid' in parents and name='nm' and trashed = false", `Files.Get`,
`Files.Create`, `Files.Update`) become pure functions on that state. -/

namespace Gdriver

/-- Embeds `isPathSeperator` from fileinfo.go: a rune is a path
separator iff it is a slash or a backslash. -/
def isPathSeperator (c : Char) : Bool :=
  c == '/' || c == '\\'

/-- Embeds `sanitizeName` from fileinfo.go: every path separator and
every single-quote character (codepoint 39) in a name is replaced by a
dash before the name is used in a store query or stored remotely. -/
def sanitizeName (s : String) : String :=
  String.mk (s.data.map (fun c => if isPathSeperator c || c == Char.ofNat 39 then '-' else c))

/-- Worker for `splitPath`: scan the runes keeping the current
(reversed) field; a separator ends the field, empty fields are
dropped. -/
def fieldsAux (f : Char → Bool) : List Char → List Char → List String
  | cur, [] => if cur.isEmpty then [] else [String.mk cur.reverse]
  | cur, c :: rest =>
    if f c then
      if cur.isEmpty then fieldsAux f [] rest
      else String.mk cur.reverse :: fieldsAux f [] rest
    else fieldsAux f (c :: cur) rest

/-- Embeds `strings.FieldsFunc(path, isPathSeperator)`: split a path at
separators into its maximal non-empty segments (empty segments are
discarded, so leading, trailing and repeated separators vanish). -/
def splitPath (p : String) : List String :=
  fieldsAux isPathSeperator [] p.data

/-- Joining strings with the slash character (what `strings.Join` with
"/" does; `path.Join` is this followed by Clean). -/
def slashJoin : List String → String
  | [] => ""
  | [p] => p
  | p :: q :: rest => p ++ "/" ++ slashJoin (q :: rest)

/-- Core of Go `path.Clean` at the component level: process the
slash-free components of a non-rooted path left to right keeping a
stack; "" and "." components are dropped, ".." pops a previous normal
component and is kept when nothing can be popped. -/
def cleanComponents (acc : List String) : List String → List String
  | [] => acc
  | c :: rest =>
    if c == "" || c == "." then cleanComponents acc rest
    else if c == ".." then
      match acc.getLast? with
      | some t => if t == ".." then cleanComponents (acc ++ [".."]) rest else cleanComponents acc.dropLast rest
      | none => cleanComponents [".."] rest
    else cleanComponents (acc ++ [c]) rest

/-- Embeds Go `path.Join` as used by the sources: empty elements are
ignored, the rest are joined with "/" and the result is Cleaned.  The
elements the Go code passes to `path.Join` are segments produced by
`splitPath` (hence slash-free), so Clean only has to act on whole
components, which is what `cleanComponents` does. -/
def goPathJoin (elems : List String) : String :=
  let parts := elems.filter (fun q => q != "")
  if parts.isEmpty then ""
  else
    let out := cleanComponents [] parts
    if out.isEmpty then "." else slashJoin out

/-- One remote Drive entry: id, stored name, parent ids, kind
(directory iff the mime type is the folder mime type) and trashed
flag. -/
structure GNode where
  id : String
  name : String
  parents : List String
  isDir : Bool
  trashed : Bool
  deriving DecidableEq

/-- The backing store: the flat node collection, a counter for fresh
ids handed out by `Files.Create`, and the ids whose `Files.Update`
call fails (failure injection used to study error propagation). -/
structure GState where
  nodes : List GNode
  nextId : Nat
  failUpdate : List String
  deriving DecidableEq

/-- The query "'parentId' in parents and name='nm' and trashed = false"
issued by `getFileByParts` and `makeDirectoryByParts`. -/
def lookup (s : GState) (parentId nm : String) : List GNode :=
  s.nodes.filter (fun n => n.parents.contains parentId && n.name == nm && !n.trashed)

/-- The `Files.Get(id)` call (also returns trashed nodes). -/
def get (s : GState) (nodeId : String) : Option GNode :=
  s.nodes.find? (fun n => n.id == nodeId)

/-- Errors surfaced by the driver.  `notFound` is `NotFoundError{Path}`,
`multipleEntries` the "multiple entries found" error, `notADirectory`
the "is not a directory" error carrying the offending ancestor path and
name, `invalidArg` the empty-name / root-rejection errors,
`updateFailed` and `getFailed` are backing-store failures, and
`emptyParts` marks the unreachable empty-walk case of the resolver
loop. -/
inductive GErr where
  | notFound (path : String)
  | multipleEntries (path : String)
  | notADirectory (dirPath : String) (name : String)
  | invalidArg (msg : String)
  | updateFailed (id : String)
  | getFailed (id : String)
  | emptyParts
  deriving DecidableEq

/-- Result of a path resolution, distinguishing the case where the very
root `FileInfo` pointer is returned (empty segment list) from a freshly
constructed node; the Go root-mutation guards compare pointers, so they
trigger exactly in the first case. -/
inductive Resolved where
  | root
  | node (n : GNode) (parentPath : String)
  deriving DecidableEq

/-- Embeds the segment loop of `getFileByParts` (gdriver.go): for each
segment query the store under the current parent id; zero matches fail
with NotFound carrying the joined walked prefix including the failing
segment, two or more matches fail with the "multiple entries" error for
that same prefix, exactly one match becomes the new current node.
`walked` accumulates the already-consumed segments (`pathParts[:i]`). -/
def resolveParts (s : GState) : String → List String → List String → Except GErr GNode
  | _, _, [] => .error .emptyParts
  | parentId, walked, p :: rest =>
    match lookup s parentId (sanitizeName p) with
    | [] => .error (.notFound (goPathJoin (walked ++ [p])))
    | [n] =>
      match rest with
      | [] => .ok n
      | _ :: _ => resolveParts s n.id (walked ++ [p]) rest
    | _ :: _ :: _ => .error (.multipleEntries (goPathJoin (walked ++ [p])))

/-- Embeds `getFileByParts`: an empty segment list returns the root
`FileInfo` unchanged, otherwise the segment loop runs and the resulting
node is wrapped with `parentPath = path.Join(pathParts[:len-1])`. -/
def getFileByParts (s : GState) (root : GNode) (parts : List String) : Except GErr Resolved :=
  match parts with
  | [] => .ok .root
  | _ :: _ => (resolveParts s root.id [] parts).map (fun n => .node n (goPathJoin parts.dropLast))

/-- Embeds `getFile` (and hence `Stat`): split the path and resolve. -/
def getFile (s : GState) (root : GNode) (p : String) : Except GErr Resolved :=
  getFileByParts s root (splitPath p)

/-- Instrumentation twin of `resolveParts` counting the store list
calls it performs: one `Files.List` call per loop iteration reached. -/
def resolveCalls (s : GState) : String → List String → Nat
  | _, [] => 0
  | parentId, p :: rest =>
    match lookup s parentId (sanitizeName p) with
    | [n] =>
      match rest with
      | [] => 1
      | _ :: _ => 1 + resolveCalls s n.id rest
    | _ => 1

/-- Store list calls performed by `getFile`: none when the segment list
is empty (the root is returned without touching the store). -/
def getFileCalls (s : GState) (root : GNode) (p : String) : Nat :=
  match splitPath p with
  | [] => 0
  | _ :: _ => resolveCalls s root.id (splitPath p)

/-- The chain of nodes a successful resolution walks through: `some ch`
when every segment finds exactly one match, with `ch` listing the
selected node of each segment in order. -/
def resolveChainAux (s : GState) : String → List String → Option (List GNode)
  | _, [] => some []
  | parentId, p :: rest =>
    match lookup s parentId (sanitizeName p) with
    | [n] => (resolveChainAux s n.id rest).map (fun ch => n :: ch)
    | _ => none

/-- Current parent id after walking a chain: the id of the last chain
node, or the starting id for the empty chain. -/
def lastId (parentId : String) (ch : List GNode) : String :=
  (ch.map (fun n => n.id)).getLastD parentId

/-- Fresh id handed out by `Files.Create` in the model. -/
def freshId (s : GState) : String :=
  "created-" ++ toString s.nextId

/-- Effect of `Files.Create` with the folder mime type: append the new
node and advance the id counter. -/
def addNode (s : GState) (c : GNode) : GState :=
  { s with nodes := s.nodes ++ [c], nextId := s.nextId + 1 }

/-- Embeds the loop of `makeDirectoryByParts` (gdriver.go): walk the
segments; zero matches create a directory under the current parent
(failing with the "is not a directory" error when the current parent is
not a directory — the error names `path.Join(pathParts[:i])` and the
parent's sanitized display name), one match is reused as-is, several
matches fail with the "multiple entries" error.  `walked` accumulates
the consumed segments (`pathParts[:i]`). -/
def makeDirectoryByParts (s : GState) (parent : GNode) (walked : List String) :
    List String → Except GErr (GState × GNode)
  | [] => .ok (s, parent)
  | p :: rest =>
    match lookup s parent.id (sanitizeName p) with
    | [] =>
      if parent.isDir then
        let c : GNode :=
          { id := freshId s, name := sanitizeName p, parents := [parent.id],
            isDir := true, trashed := false }
        makeDirectoryByParts (addNode s c) c (walked ++ [p]) rest
      else .error (.notADirectory (goPathJoin walked) (sanitizeName parent.name))
    | [n] => makeDirectoryByParts s n (walked ++ [p]) rest
    | _ :: _ :: _ => .error (.multipleEntries (goPathJoin (walked ++ [p])))

/-- Embeds `MakeDirectory`: split the path and run the creation walk
from the configured root. -/
def makeDirectory (s : GState) (root : GNode) (p : String) : Except GErr (GState × GNode) :=
  makeDirectoryByParts s root [] (splitPath p)

/-- A `FileInfo` value as the Go driver returns it: the wrapped
`drive.File` pointer (which can be nil, hence `Option`) together with
the computed `parentPath`. -/
structure FileInfoM where
  item : Option GNode
  parentPath : String
  deriving DecidableEq

/-- The `Files.Update(id, {Name: nm})` call: fails for ids in the
failure-injection set and for absent ids, otherwise patches only the
name field of the node and returns the patched node. -/
def storeUpdateName (s : GState) (nodeId nm : String) : Except GErr (GState × GNode) :=
  if s.failUpdate.contains nodeId then .error (.updateFailed nodeId)
  else
    match get s nodeId with
    | none => .error (.getFailed nodeId)
    | some m =>
      .ok ({ s with nodes := s.nodes.map (fun k => if k.id == nodeId then { k with name := nm } else k) },
           { m with name := nm })

/-- Embeds `Rename` (gdriver.go): reject an empty new name, resolve the
path, reject the root pointer, then issue a name-only update using the
sanitized last segment of the new name.  The Go code does not check the
error of the update call: on a failing update it returns a nil error
together with a `FileInfo` wrapping a nil `drive.File`, which the
`.error` branch below reproduces. -/
def rename (s : GState) (root : GNode) (pathStr newName : String) :
    Except GErr (GState × FileInfoM) :=
  let newNameParts := splitPath newName
  if newNameParts.isEmpty then .error (.invalidArg "new name cannot be empty")
  else
    match getFile s root pathStr with
    | .error e => .error e
    | .ok .root => .error (.invalidArg "root cannot be renamed")
    | .ok (.node n pp) =>
      match storeUpdateName s n.id (sanitizeName (newNameParts.getLastD "")) with
      | .error _ => .ok (s, { item := none, parentPath := pp })
      | .ok (s', n') => .ok (s', { item := some n', parentPath := pp })

/-- Effect of `Files.Update(id, {Trashed: true})`: set the trashed flag
on the node with the given id. -/
def trashNode (s : GState) (nodeId : String) : GState :=
  { s with nodes := s.nodes.map (fun m => if m.id == nodeId then { m with trashed := true } else m) }

/-- Embeds `Trash` (gdriver.go): resolve the path, reject the root
pointer, then patch the trashed flag; unlike `Rename`, the update error
is checked and propagated. -/
def trash (s : GState) (root : GNode) (pathStr : String) : Except GErr GState :=
  match getFile s root pathStr with
  | .error e => .error e
  | .ok .root => .error (.invalidArg "root cannot be trashed")
  | .ok (.node n _) =>
    if s.failUpdate.contains n.id then .error (.updateFailed n.id)
    else .ok (trashNode s n.id)

/-- Loop body of `isInRoot` (gdriver.go) over the remaining parent
ids, with the recursive search passed in as `rec` (it is instantiated
with the one-less-fuel search, keeping the recursion structural): a
parent id equal to the searched root id answers true with the
accumulated base path; otherwise the parent node is fetched and
searched recursively with `path.Join(parent.Name, basePath)` as the new
base path; a false answer moves on to the next parent id. -/
def isInRootGoAux (s : GState) (rootId : String)
    (rec : GNode → String → Option (Except GErr (Bool × String))) :
    List String → String → Option (Except GErr (Bool × String))
  | [], _ => some (.ok (false, ""))
  | parentId :: rest, basePath =>
    if parentId == rootId then some (.ok (true, basePath))
    else
      match get s parentId with
      | none => some (.error (.getFailed parentId))
      | some parent =>
        match rec parent (goPathJoin [parent.name, basePath]) with
        | none => none
        | some (.error e) => some (.error e)
        | some (.ok (true, pp)) => some (.ok (true, pp))
        | some (.ok (false, _)) => isInRootGoAux s rootId rec rest basePath

/-- Embeds `isInRoot` (gdriver.go).  The Go function recurses through
the remote parent graph with no termination guard, so the model carries
explicit fuel: `none` means the fuel ran out (the Go code would still
be running), `some` carries either the propagated `Files.Get` error or
the (found?, parentPath) pair. -/
def isInRootFuel (s : GState) (rootId : String) :
    Nat → GNode → String → Option (Except GErr (Bool × String))
  | 0, _, _ => none
  | fuel + 1, f, basePath =>
    isInRootGoAux s rootId (isInRootFuel s rootId fuel) f.parents basePath

/-- Embeds the visiting loop of `ListTrash`: for every node of the
global trash listing run `isInRoot` against the scope node's id; nodes
found below the scope are handed to the callback together with
`path.Join(scopePath, parentPath)`, the others are skipped.  The model
collects the visited (node, parentPath) pairs in order. -/
def listTrashVisits (s : GState) (scopeId scopePath : String) (fuel : Nat) :
    List GNode → Option (Except GErr (List (GNode × String)))
  | [] => some (.ok [])
  | t :: rest =>
    match isInRootFuel s scopeId fuel t "" with
    | none => none
    | some (.error e) => some (.error e)
    | some (.ok (false, _)) => listTrashVisits s scopeId scopePath fuel rest
    | some (.ok (true, pp)) =>
      match listTrashVisits s scopeId scopePath fuel rest with
      | none => none
      | some (.error e) => some (.error e)
      | some (.ok vs) => some (.ok ((t, goPathJoin [scopePath, pp]) :: vs))

/-- Id of a resolved scope node (the configured root for the pointer
case). -/
def resolvedId (root : GNode) : Resolved → String
  | .root => root.id
  | .node n _ => n.id

/-- `FileInfo.Path()` of a resolved scope node:
`path.Join(parentPath, sanitizedName)`; the root `FileInfo` carries an
empty parent path. -/
def resolvedPath (root : GNode) : Resolved → String
  | .root => goPathJoin ["", sanitizeName root.name]
  | .node n pp => goPathJoin [pp, sanitizeName n.name]

/-- The global trash listing issued by `ListTrash`
(query "trashed = true", unscoped). -/
def trashListing (s : GState) : List GNode :=
  s.nodes.filter (fun n => n.trashed)

/-- Embeds `ListTrash` (gdriver.go): resolve the scope path, list the
global trash and run the visiting loop. -/
def listTrash (s : GState) (root : GNode) (pathStr : String) (fuel : Nat) :
    Option (Except GErr (List (GNode × String))) :=
  match getFile s root pathStr with
  | .error e => some (.error e)
  | .ok r => listTrashVisits s (resolvedId root r) (resolvedPath root r) fuel (trashListing s)

/-- Operations a caller can perform on an open file handle. -/
inductive ROp where
  | read
  | write
  | close
  deriving DecidableEq

/-- Outcome of a read-handle operation: the wrong-mode usage error from
`readFile.Write`, a nil-pointer dereference (Go runtime panic), a
propagated store error, or success. -/
inductive RRes where
  | usageError
  | panicked
  | ok
  | storeErr
  deriving DecidableEq

/-- State of a `readFile` handle: whether the `sync.Once` body already
ran, and whether `f.reader` is set (it stays nil when the download
request of the only `once.Do` execution failed). -/
structure RHandle where
  onceDone : Bool
  hasReader : Bool
  deriving DecidableEq

/-- Constructing a `readFile` handle performs no store call: the struct
starts with the zero `sync.Once` and a nil reader.  The second
component records the number of download requests issued at open
time. -/
def rOpen : RHandle × Nat :=
  ({ onceDone := false, hasReader := false }, 0)

/-- Embeds `readFile.getReader`: the `once.Do` body requests the
download stream exactly when the once has not fired yet; afterwards the
reader field is set iff that single download succeeded, and later calls
return a nil error without any store call.  The result counts the
download requests issued (0 or 1) and reports whether this call
surfaced the download error. -/
def rGetReader (downloadOk : Bool) (h : RHandle) : RHandle × Nat × Bool :=
  if h.onceDone then (h, 0, false)
  else ({ onceDone := true, hasReader := downloadOk }, 1, !downloadOk)

/-- Embeds one operation on a `readFile` handle.  `Write` fails
immediately with the wrong-mode usage error and touches nothing.
`Read` and `Close` first run `getReader` and then delegate to the
reader (a nil reader after an earlier failed download dereferences
nil). -/
def rStep (downloadOk : Bool) (h : RHandle) : ROp → RHandle × Nat × RRes
  | .write => (h, 0, .usageError)
  | .read =>
    let (h', c, failedNow) := rGetReader downloadOk h
    if failedNow then (h', c, .storeErr)
    else if h'.hasReader then (h', c, .ok) else (h', c, .panicked)
  | .close =>
    let (h', c, failedNow) := rGetReader downloadOk h
    if failedNow then (h', c, .storeErr)
    else if h'.hasReader then (h', c, .ok) else (h', c, .panicked)

/-- Run a sequence of operations on a read handle, collecting for each
operation the number of download requests it issued and its result. -/
def rRun (downloadOk : Bool) (h : RHandle) : List ROp → List (Nat × RRes) × RHandle
  | [] => ([], h)
  | op :: rest =>
    let (h', c, r) := rStep downloadOk h op
    let (tl, hEnd) := rRun downloadOk h' rest
    ((c, r) :: tl, hEnd)

/-- Spec-side description of when the download may be requested: one
request at the first read-or-close operation (given whether one already
happened), none anywhere else and none for writes. -/
def expectedDownloads : Bool → List ROp → List Nat
  | _, [] => []
  | done, .write :: rest => 0 :: expectedDownloads done rest
  | done, .read :: rest => (if done then 0 else 1) :: expectedDownloads true rest
  | done, .close :: rest => (if done then 0 else 1) :: expectedDownloads true rest

/-- State of a `writeFile` handle: whether `getWriter` already started
the background upload (the pipe writer and the done channel are set
together, so one flag models both being non-nil). -/
structure WHandle where
  started : Bool
  deriving DecidableEq

/-- Outcome of `writeFile.Close`: a Go runtime panic (nil pipe-writer
dereference), success, or the background upload's error. -/
inductive WCloseRes where
  | panicked
  | ok
  | uploadErr (e : GErr)
  deriving DecidableEq

/-- Embeds `writeFile.getWriter`: under the mutex, when the done
channel is nil, open the pipe and start the background upload task;
the error returned is the current `putError` (nil right after the task
was just started). -/
def wGetWriter (h : WHandle) : WHandle :=
  if h.started then h else { started := true }

/-- Embeds `writeFile.Write`: ensure the background task is running,
then feed the pipe. -/
def wWrite (h : WHandle) : WHandle :=
  wGetWriter h

/-- Embeds `writeFile.Close` with `uploadResult` the terminal error of
the background upload task.  The code first calls `f.writer.Close()`:
when no `Write` ever ran, `f.writer` is still nil and this dereferences
nil (runtime panic).  Otherwise it waits on the done channel and
surfaces `putError`. -/
def wClose (uploadResult : Option GErr) (h : WHandle) : WCloseRes :=
  if h.started then
    match uploadResult with
    | some e => .uploadErr e
    | none => .ok
  else .panicked

/-- A path segment that is not special for Go path cleaning: non-empty
and neither "." nor ".." (segments produced by `splitPath` are
additionally separator-free). -/
def plainSeg (q : String) : Bool :=
  q != "" && q != "." && q != ".."

/-- A store whose parent references all resolve: every parent id of
every node is the id of some node. -/
abbrev Closed (s : GState) : Prop :=
  ∀ n ∈ s.nodes, ∀ parentId ∈ n.parents, (get s parentId).isSome

/-- A rank function witnessing that the parent graph is acyclic: every
parent reference strictly decreases the rank. -/
abbrev Ranked (s : GState) (rank : String → Nat) : Prop :=
  ∀ n ∈ s.nodes, ∀ parentId ∈ n.parents, rank parentId < rank n.id

/-- A node descends from the node with id `rootId`: some chain of
parent references (at least one step) leads from the node to
`rootId`. -/
inductive Reaches (s : GState) (rootId : String) : GNode → Prop
  | direct {f : GNode} {parentId : String} :
      parentId ∈ f.parents → parentId = rootId → Reaches s rootId f
  | step {f p : GNode} {parentId : String} :
      parentId ∈ f.parents → get s parentId = some p → Reaches s rootId p → Reaches s rootId f

/-- Boolean verdict of the fuelled `isInRoot` walk started the way
`ListTrash` starts it (empty base path). -/
def isInRootBool (s : GState) (rootId : String) (fuel : Nat) (t : GNode) : Bool :=
  match isInRootFuel s rootId fuel t "" with
  | some (.ok (true, _)) => true
  | _ => false

/-- Lookups that already had a match keep exactly their results when
the state evolves: the property `makeDirectoryByParts` preserves, which
drives its idempotence. -/
def preservesNonempty (s s' : GState) : Prop :=
  ∀ parentId nm, lookup s parentId nm ≠ [] → lookup s' parentId nm = lookup s parentId nm

/-- Sample root directory node used by the concrete witnesses. -/
def sampleRoot : GNode :=
  { id := "root", name := "MyDrive", parents := [], isDir := true, trashed := false }

/-- Store for the C1 exhibit: one file under the root whose
`Files.Update` call fails. -/
def c1State : GState :=
  { nodes := [{ id := "f1", name := "File1", parents := ["root"], isDir := false, trashed := false }],
    nextId := 0,
    failUpdate := ["f1"] }

/-- Store for the C4 exhibit: a single directory "a" under the root. -/
def c4State : GState :=
  { nodes := [{ id := "a", name := "a", parents := ["root"], isDir := true, trashed := false }],
    nextId := 0,
    failUpdate := [] }

/-- Store for the C3 witness: two distinct children of the root that
share the name "a" (ambiguous remote state). -/
def c3State : GState :=
  { nodes := [{ id := "a1", name := "a", parents := ["root"], isDir := true, trashed := false },
              { id := "a2", name := "a", parents := ["root"], isDir := true, trashed := false }],
    nextId := 0,
    failUpdate := [] }

/-- Empty store used by the C5 witness. -/
def c5Start : GState :=
  { nodes := [], nextId := 0, failUpdate := [] }

/-- Leaf directory produced by MakeDirectory("a/b") on the empty
store. -/
def c5Leaf : GNode :=
  { id := "created-1", name := "b", parents := ["created-0"], isDir := true, trashed := false }

/-- Store after MakeDirectory("a/b") on the empty store: the two
freshly created directories. -/
def c5Done : GState :=
  { nodes := [{ id := "created-0", name := "a", parents := ["root"], isDir := true, trashed := false },
              c5Leaf],
    nextId := 2,
    failUpdate := [] }

/-- Store for the C8 witness: Folder1 under the root, File1 inside
Folder1. -/
def c8State : GState :=
  { nodes := [{ id := "f1", name := "Folder1", parents := ["root"], isDir := true, trashed := false },
              { id := "x", name := "File1", parents := ["f1"], isDir := false, trashed := false }],
    nextId := 0,
    failUpdate := [] }

/-- Store for the C7 witness: the root node itself, Folder1 below it,
a trashed File1 inside Folder1 and a trashed File2 directly under the
root (outside the Folder1 scope). -/
def c7State : GState :=
  { nodes := [{ id := "root", name := "MyDrive", parents := [], isDir := true, trashed := false },
              { id := "f1", name := "Folder1", parents := ["root"], isDir := true, trashed := false },
              { id := "x", name := "File1", parents := ["f1"], isDir := false, trashed := true },
              { id := "y", name := "File2", parents := ["root"], isDir := false, trashed := true }],
    nextId := 0,
    failUpdate := [] }

/-- Rank function witnessing that the C7 witness store is acyclic. -/
def c7Rank (nodeId : String) : Nat :=
  if nodeId = "root" then 0 else if nodeId = "f1" then 1 else 2

end Gdriver

deriving instance DecidableEq for Except

namespace Gdriver

/-- Download requests issued by one handle operation: none for a
write, none after the once fired, one otherwise. -/
lemma rStep_count (downloadOk : Bool) (h : RHandle) (op : ROp) :
    (rStep downloadOk h op).2.1
      = match op with
        | .write => 0
        | _ => if h.onceDone then 0 else 1 := by
  rcases h with ⟨od, hr⟩
  cases op <;> cases od <;> cases hr <;> cases downloadOk <;> rfl

/-- The one-shot guard after one handle operation: unchanged by a
write, fired by a read or close. -/
lemma rStep_onceDone (downloadOk : Bool) (h : RHandle) (op : ROp) :
    (rStep downloadOk h op).1.onceDone
      = match op with
        | .write => h.onceDone
        | _ => true := by
  rcases h with ⟨od, hr⟩
  cases op <;> cases od <;> cases hr <;> cases downloadOk <;> rfl

/-- Per-operation download counts agree with the spec-side description,
starting from any handle state. -/
lemma rRun_map_fst (downloadOk : Bool) :
    ∀ (ops : List ROp) (h : RHandle),
      (rRun downloadOk h ops).1.map Prod.fst = expectedDownloads h.onceDone ops := by
  intro ops
  induction ops with
  | nil => intro h; rfl
  | cons op rest ih =>
    intro h
    rcases hstep : rStep downloadOk h op with ⟨h', c, r⟩
    rcases hrec : rRun downloadOk h' rest with ⟨tl, hEnd⟩
    have hrun : rRun downloadOk h (op :: rest) = ((c, r) :: tl, hEnd) := by
      simp only [rRun, hstep, hrec]
    have htl : tl.map Prod.fst = expectedDownloads h'.onceDone rest := by
      have h2 := ih h'
      rw [hrec] at h2
      exact h2
    have hc := rStep_count downloadOk h op
    rw [hstep] at hc
    have hod := rStep_onceDone downloadOk h op
    rw [hstep] at hod
    rw [hrun]
    simp only [List.map_cons]
    cases op with
    | write =>
      rw [htl, hod]
      simp only at hc
      rw [hc]
      rfl
    | read =>
      rw [htl, hod]
      simp only at hc
      rw [hc]
      rfl
    | close =>
      rw [htl, hod]
      simp only at hc
      rw [hc]
      rfl

/-- The spec-side download schedule sums to at most one request, and to
none once the one-shot guard has fired. -/
lemma expectedDownloads_sum : ∀ (ops : List ROp) (done : Bool),
    (expectedDownloads done ops).sum ≤ if done then 0 else 1 := by
  intro ops
  induction ops with
  | nil => intro done; cases done <;> simp [expectedDownloads]
  | cons op rest ih =>
    intro done
    have h1 : (expectedDownloads true rest).sum ≤ 0 := by simpa using ih true
    cases op with
    | write =>
      have h2 := ih done
      cases done <;> simpa [expectedDownloads] using h2
    | read =>
      cases done <;> simp [expectedDownloads] <;> omega
    | close =>
      cases done <;> simp [expectedDownloads] <;> omega

end Gdriver

/-- C9: on a read handle, the download is requested at most once over
any operation sequence and exactly at the first Read-or-Close
operation (`expectedDownloads` encodes that schedule: writes never
download, the first read-or-close downloads once, everything after
that downloads nothing); every Write fails immediately with the usage
error, changes nothing and issues no call; and constructing the handle
(open time) issues no download request. -/
theorem c9_read_handle_downloads_once :
    (∀ (downloadOk : Bool) (ops : List Gdriver.ROp),
        ((Gdriver.rRun downloadOk Gdriver.rOpen.1 ops).1.map Prod.fst
            = Gdriver.expectedDownloads false ops)
        ∧ ((Gdriver.rRun downloadOk Gdriver.rOpen.1 ops).1.map Prod.fst).sum ≤ 1)
    ∧ (∀ (downloadOk : Bool) (h : Gdriver.RHandle),
        Gdriver.rStep downloadOk h .write = (h, 0, .usageError))
    ∧ Gdriver.rOpen.2 = 0 := by
  refine ⟨?_, ?_, rfl⟩
  · intro downloadOk ops
    have hmap := Gdriver.rRun_map_fst downloadOk ops Gdriver.rOpen.1
    have : Gdriver.rOpen.1.onceDone = false := rfl
    rw [this] at hmap
    refine ⟨hmap, ?_⟩
    rw [hmap]
    simpa using Gdriver.expectedDownloads_sum ops false
  · intro downloadOk h
    rfl

/-- C2 exhibit: closing a write handle with no prior write dereferences
the nil pipe writer (runtime panic) instead of starting the empty
upload, while after at least one write, Close does join the background
task and surfaces its terminal error. -/
theorem c2_close_without_write_panics :
    Gdriver.wClose none { started := false } = .panicked
    ∧ Gdriver.wClose (some (.updateFailed "x")) { started := false } = .panicked
    ∧ Gdriver.wClose none (Gdriver.wWrite { started := false }) = .ok
    ∧ Gdriver.wClose (some (.updateFailed "x")) (Gdriver.wWrite { started := false })
        = .uploadErr (.updateFailed "x") :=
  ⟨rfl, rfl, rfl, rfl⟩

/-- C1 exhibit: the backing store reports a failure for the name-update
call issued by Rename, yet Rename returns a success carrying a
`FileInfo` that wraps a nil `drive.File` — the error is dropped instead
of propagated. -/
theorem c1_rename_drops_update_error :
    Gdriver.storeUpdateName Gdriver.c1State "f1" "File2" = .error (.updateFailed "f1")
    ∧ Gdriver.rename Gdriver.c1State Gdriver.sampleRoot "File1" "File2"
        = .ok (Gdriver.c1State, { item := none, parentPath := "" }) := by
  constructor
  · rfl
  · decide

/-- C10: a path whose segment list is empty after splitting resolves to
the configured root unchanged, with zero backing-store calls. -/
theorem c10_empty_path_returns_root (s : Gdriver.GState) (root : Gdriver.GNode) (p : String)
    (h : Gdriver.splitPath p = []) :
    Gdriver.getFile s root p = .ok .root ∧ Gdriver.getFileCalls s root p = 0 := by
  constructor
  · show Gdriver.getFileByParts s root (Gdriver.splitPath p) = .ok .root
    rw [h]
    rfl
  · simp only [Gdriver.getFileCalls, h]

/-- C10 witness: the concrete paths "", "/" and "//" all have empty
segment lists and resolve to the root with no store call. -/
theorem c10_witness :
    (Gdriver.getFile Gdriver.c1State Gdriver.sampleRoot "" = .ok .root
      ∧ Gdriver.getFileCalls Gdriver.c1State Gdriver.sampleRoot "" = 0)
    ∧ (Gdriver.getFile Gdriver.c1State Gdriver.sampleRoot "/" = .ok .root
      ∧ Gdriver.getFileCalls Gdriver.c1State Gdriver.sampleRoot "/" = 0)
    ∧ (Gdriver.getFile Gdriver.c1State Gdriver.sampleRoot "//" = .ok .root
      ∧ Gdriver.getFileCalls Gdriver.c1State Gdriver.sampleRoot "//" = 0) :=
  ⟨c10_empty_path_returns_root _ _ _ (by decide),
   c10_empty_path_returns_root _ _ _ (by decide),
   c10_empty_path_returns_root _ _ _ (by decide)⟩

namespace Gdriver

/-- Cleaning does nothing on a list of plain components. -/
lemma cleanComponents_plain : ∀ (comps acc : List String),
    (∀ q ∈ comps, plainSeg q = true) → cleanComponents acc comps = acc ++ comps := by
  intro comps
  induction comps with
  | nil => intro acc _; simp [cleanComponents]
  | cons c rest ih =>
    intro acc hall
    have hc := hall c (List.mem_cons_self c rest)
    have h1 : (c == "") = false := by
      cases hb : c == "" with
      | false => rfl
      | true => simp [plainSeg, bne, hb] at hc
    have h2 : (c == ".") = false := by
      cases hb : c == "." with
      | false => rfl
      | true => simp [plainSeg, bne, hb] at hc
    have h3 : (c == "..") = false := by
      cases hb : c == ".." with
      | false => rfl
      | true => simp [plainSeg, bne, hb] at hc
    simp only [cleanComponents, h1, h2, h3, Bool.or_self, Bool.false_eq_true, if_false]
    rw [ih (acc ++ [c]) (fun q hq => hall q (List.mem_cons_of_mem c hq))]
    simp

/-- On non-empty plain component lists, `path.Join` is plain
slash-joining: Clean touches nothing. -/
lemma goPathJoin_plain (comps : List String) (hne : comps ≠ [])
    (hall : ∀ q ∈ comps, plainSeg q = true) :
    goPathJoin comps = slashJoin comps := by
  have hfilter : comps.filter (fun q => q != "") = comps := by
    apply List.filter_eq_self.mpr
    intro q hq
    have hpq := hall q hq
    cases hb : q == "" with
    | false => simp [bne, hb]
    | true => simp [plainSeg, bne, hb] at hpq
  have hempty : comps.isEmpty = false := by
    cases comps with
    | nil => exact absurd rfl hne
    | cons a l => rfl
  have hclean : cleanComponents [] comps = comps := by
    simpa using cleanComponents_plain comps [] hall
  simp only [goPathJoin, hfilter, hempty, hclean, Bool.false_eq_true, if_false]

/-- Resolver step on a segment with no match. -/
lemma resolveParts_lookup_nil {s : GState} {parentId : String} {p : String}
    (walked rest : List String) (h : lookup s parentId (sanitizeName p) = []) :
    resolveParts s parentId walked (p :: rest)
      = .error (.notFound (goPathJoin (walked ++ [p]))) := by
  simp [resolveParts, h]

/-- Resolver step on a uniquely matched last segment. -/
lemma resolveParts_lookup_single_last {s : GState} {parentId : String} {p : String} {n : GNode}
    (walked : List String) (h : lookup s parentId (sanitizeName p) = [n]) :
    resolveParts s parentId walked [p] = .ok n := by
  simp [resolveParts, h]

/-- Resolver step on a uniquely matched inner segment. -/
lemma resolveParts_lookup_single_cons {s : GState} {parentId : String} {p q : String} {n : GNode}
    (walked rest : List String) (h : lookup s parentId (sanitizeName p) = [n]) :
    resolveParts s parentId walked (p :: q :: rest)
      = resolveParts s n.id (walked ++ [p]) (q :: rest) := by
  simp [resolveParts, h]

/-- Resolver step on an ambiguous segment. -/
lemma resolveParts_lookup_multi {s : GState} {parentId : String} {p : String} {n1 n2 : GNode}
    {tl : List GNode} (walked rest : List String)
    (h : lookup s parentId (sanitizeName p) = n1 :: n2 :: tl) :
    resolveParts s parentId walked (p :: rest)
      = .error (.multipleEntries (goPathJoin (walked ++ [p]))) := by
  simp [resolveParts, h]

/-- Chain step on a uniquely matched segment. -/
lemma resolveChainAux_cons (s : GState) (parentId p : String) (rest : List String) (n : GNode)
    (h : lookup s parentId (sanitizeName p) = [n]) :
    resolveChainAux s parentId (p :: rest)
      = (resolveChainAux s n.id rest).map (fun ch => n :: ch) := by
  simp [resolveChainAux, h]

/-- Inversion of a successful chain step: the segment matched a unique
node heading the chain, and the tail chains from that node. -/
lemma resolveChainAux_cons_inv (s : GState) {parentId p : String} {rest : List String}
    {ch : List GNode} (h : resolveChainAux s parentId (p :: rest) = some ch) :
    ∃ n ch', lookup s parentId (sanitizeName p) = [n]
      ∧ resolveChainAux s n.id rest = some ch' ∧ ch = n :: ch' := by
  cases hl : lookup s parentId (sanitizeName p) with
  | nil => simp [resolveChainAux, hl] at h
  | cons n tail =>
    cases tail with
    | nil =>
      rw [resolveChainAux_cons s parentId p rest n hl] at h
      rw [Option.map_eq_some'] at h
      obtain ⟨ch', hrec, hcons⟩ := h
      exact ⟨n, ch', rfl, hrec, hcons.symm⟩

    | cons n2 tail2 => simp [resolveChainAux, hl] at h

/-- The resolved chain selects one node per segment. -/
lemma resolveChainAux_length (s : GState) : ∀ (parts : List String) (parentId : String)
    (ch : List GNode), resolveChainAux s parentId parts = some ch → ch.length = parts.length := by
  intro parts
  induction parts with
  | nil =>
    intro parentId ch h
    simp only [resolveChainAux, Option.some.injEq] at h
    subst h
    rfl
  | cons p rest ih =>
    intro parentId ch h
    obtain ⟨n, ch', _, hrec, hcons⟩ := resolveChainAux_cons_inv s h
    subst hcons
    simp [ih n.id ch' hrec]

/-- Walking one more chain node shifts the starting id. -/
lemma lastId_cons (parentId : String) (n : GNode) (ch : List GNode) :
    lastId parentId (n :: ch) = lastId n.id ch := by
  show ((n :: ch).map (fun m => m.id)).getLastD parentId = (ch.map (fun m => m.id)).getLastD n.id
  rw [List.map_cons, List.getLastD_cons]

/-- Splitting a resolution after a successfully chained first part: the
walk continues from the last chain node with the first part appended to
the walked accumulator. -/
lemma resolveParts_chain (s : GState) : ∀ (pre : List String) (ch : List GNode)
    (parentId : String) (walked rest : List String), rest ≠ [] →
    resolveChainAux s parentId pre = some ch →
    resolveParts s parentId walked (pre ++ rest)
      = resolveParts s (lastId parentId ch) (walked ++ pre) rest := by
  intro pre
  induction pre with
  | nil =>
    intro ch parentId walked rest _ hch
    simp only [resolveChainAux, Option.some.injEq] at hch
    subst hch
    simp [lastId]
  | cons p pre' ih =>
    intro ch parentId walked rest hne hch
    obtain ⟨n, ch', hl, hrec, hcons⟩ := resolveChainAux_cons_inv s hch
    subst hcons
    have hstep : resolveParts s parentId walked ((p :: pre') ++ rest)
        = resolveParts s n.id (walked ++ [p]) (pre' ++ rest) := by
      cases hx : pre' ++ rest with
      | nil => exact absurd (List.append_eq_nil.mp hx).2 hne
      | cons q qs =>
        rw [List.cons_append, hx]
        exact resolveParts_lookup_single_cons walked qs hl
    rw [hstep, ih ch' n.id (walked ++ [p]) rest hne hrec, lastId_cons]
    simp

/-- A fully chained walk resolves to the last chain node. -/
lemma resolveParts_of_chain (s : GState) : ∀ (parts : List String) (parentId : String)
    (walked : List String) (ch : List GNode) (n : GNode),
    resolveChainAux s parentId parts = some ch → ch.getLast? = some n →
    resolveParts s parentId walked parts = .ok n := by
  intro parts
  induction parts with
  | nil =>
    intro parentId walked ch n hch hlast
    simp only [resolveChainAux, Option.some.injEq] at hch
    subst hch
    simp at hlast
  | cons p rest ih =>
    intro parentId walked ch n hch hlast
    obtain ⟨m, ch', hl, hrec, hcons⟩ := resolveChainAux_cons_inv s hch
    subst hcons
    cases rest with
    | nil =>
      have hch0 : ch' = [] := by
        have hlen := resolveChainAux_length s [] m.id ch' hrec
        exact List.length_eq_zero.mp hlen
      subst hch0
      simp only [List.getLast?_singleton, Option.some.injEq] at hlast
      subst hlast
      exact resolveParts_lookup_single_last walked hl
    | cons q qs =>
      have hlen : ch'.length = qs.length + 1 := by
        simpa using resolveChainAux_length s (q :: qs) m.id ch' hrec
      cases hch' : ch' with
      | nil => rw [hch'] at hlen; simp at hlen
      | cons c cs =>
        subst hch'
        rw [List.getLast?_cons_cons] at hlast
        rw [resolveParts_lookup_single_cons walked qs hl]
        exact ih m.id (walked ++ [p]) (c :: cs) n hrec hlast

/-- Unfolding `getFileByParts` on a non-empty segment list. -/
lemma getFileByParts_ne_nil {s : GState} {root : GNode} {parts : List String}
    (hne : parts ≠ []) :
    getFileByParts s root parts
      = (resolveParts s root.id [] parts).map (fun n => .node n (goPathJoin parts.dropLast)) := by
  cases parts with
  | nil => exact absurd rfl hne
  | cons p rest => rfl

end Gdriver

namespace Gdriver

/-- Creation-walk step on a missed segment under a directory parent. -/
lemma makeDirectoryByParts_lookup_nil_dir {s : GState} {parent : GNode} {p : String}
    (walked rest : List String) (h : lookup s parent.id (sanitizeName p) = [])
    (hdir : parent.isDir = true) :
    makeDirectoryByParts s parent walked (p :: rest)
      = makeDirectoryByParts
          (addNode s { id := freshId s, name := sanitizeName p, parents := [parent.id],
                       isDir := true, trashed := false })
          { id := freshId s, name := sanitizeName p, parents := [parent.id],
            isDir := true, trashed := false }
          (walked ++ [p]) rest := by
  simp [makeDirectoryByParts, h, hdir]

/-- Creation-walk step on a missed segment under a non-directory
parent. -/
lemma makeDirectoryByParts_lookup_nil_notdir {s : GState} {parent : GNode} {p : String}
    (walked rest : List String) (h : lookup s parent.id (sanitizeName p) = [])
    (hdir : parent.isDir = false) :
    makeDirectoryByParts s parent walked (p :: rest)
      = .error (.notADirectory (goPathJoin walked) (sanitizeName parent.name)) := by
  simp [makeDirectoryByParts, h, hdir]

/-- Creation-walk step on a uniquely matched segment. -/
lemma makeDirectoryByParts_lookup_single {s : GState} {parent : GNode} {p : String} {n : GNode}
    (walked rest : List String) (h : lookup s parent.id (sanitizeName p) = [n]) :
    makeDirectoryByParts s parent walked (p :: rest)
      = makeDirectoryByParts s n (walked ++ [p]) rest := by
  simp [makeDirectoryByParts, h]

/-- Creation-walk step on an ambiguous segment. -/
lemma makeDirectoryByParts_lookup_multi {s : GState} {parent : GNode} {p : String}
    {n1 n2 : GNode} {tl : List GNode} (walked rest : List String)
    (h : lookup s parent.id (sanitizeName p) = n1 :: n2 :: tl) :
    makeDirectoryByParts s parent walked (p :: rest)
      = .error (.multipleEntries (goPathJoin (walked ++ [p]))) := by
  simp [makeDirectoryByParts, h]

/-- The creation walk splits over list append: run the first part, then
continue from the produced state and parent with the accumulator
advanced. -/
lemma makeDirectoryByParts_append : ∀ (l1 : List String) (s : GState) (parent : GNode)
    (walked l2 : List String),
    makeDirectoryByParts s parent walked (l1 ++ l2)
      = match makeDirectoryByParts s parent walked l1 with
        | .ok (s', q) => makeDirectoryByParts s' q (walked ++ l1) l2
        | .error e => .error e := by
  intro l1
  induction l1 with
  | nil =>
    intro s parent walked l2
    simp [makeDirectoryByParts]
  | cons p l1' ih =>
    intro s parent walked l2
    cases hl : lookup s parent.id (sanitizeName p) with
    | nil =>
      cases hdir : parent.isDir with
      | true =>
        rw [List.cons_append, makeDirectoryByParts_lookup_nil_dir walked (l1' ++ l2) hl hdir,
            ih, makeDirectoryByParts_lookup_nil_dir walked l1' hl hdir]
        cases makeDirectoryByParts
            (addNode s { id := freshId s, name := sanitizeName p, parents := [parent.id],
                         isDir := true, trashed := false })
            { id := freshId s, name := sanitizeName p, parents := [parent.id],
              isDir := true, trashed := false }
            (walked ++ [p]) l1' with
        | ok pr => simp
        | error e => rfl
      | false =>
        rw [List.cons_append, makeDirectoryByParts_lookup_nil_notdir walked (l1' ++ l2) hl hdir,
            makeDirectoryByParts_lookup_nil_notdir walked l1' hl hdir]
    | cons n tail =>
      cases tail with
      | nil =>
        rw [List.cons_append, makeDirectoryByParts_lookup_single walked (l1' ++ l2) hl, ih,
            makeDirectoryByParts_lookup_single walked l1' hl]
        cases makeDirectoryByParts s n (walked ++ [p]) l1' with
        | ok pr => simp
        | error e => rfl
      | cons n2 tail2 =>
        rw [List.cons_append, makeDirectoryByParts_lookup_multi walked (l1' ++ l2) hl,
            makeDirectoryByParts_lookup_multi walked l1' hl]

/-- Specialisation of the append split when the first part of the walk
succeeded. -/
lemma makeDirectoryByParts_append_ok {s s' : GState} {parent q : GNode}
    {l1 : List String} (walked l2 : List String)
    (hmk : makeDirectoryByParts s parent walked l1 = .ok (s', q)) :
    makeDirectoryByParts s parent walked (l1 ++ l2)
      = makeDirectoryByParts s' q (walked ++ l1) l2 := by
  rw [makeDirectoryByParts_append l1 s parent walked l2, hmk]

end Gdriver

/-- C3: whenever a segment of a resolution walk, or of a
directory-creation walk, matches more than one child under the current
parent, the operation fails with the "multiple entries" error carrying
the joined prefix up to and including that segment; the ambiguity is
never silently resolved by picking a match. -/
theorem c3_multiple_entries_never_picked :
    (∀ (s : Gdriver.GState) (root : Gdriver.GNode) (pre : List String) (p : String)
        (post : List String) (ch : List Gdriver.GNode) (n1 n2 : Gdriver.GNode)
        (tl : List Gdriver.GNode),
        Gdriver.resolveChainAux s root.id pre = some ch →
        Gdriver.lookup s (Gdriver.lastId root.id ch) (Gdriver.sanitizeName p) = n1 :: n2 :: tl →
        Gdriver.getFileByParts s root (pre ++ p :: post)
          = .error (.multipleEntries (Gdriver.goPathJoin (pre ++ [p]))))
    ∧ (∀ (s : Gdriver.GState) (root : Gdriver.GNode) (pre : List String) (p : String)
        (post : List String) (s' : Gdriver.GState) (q : Gdriver.GNode)
        (m1 m2 : Gdriver.GNode) (tl : List Gdriver.GNode),
        Gdriver.makeDirectoryByParts s root [] pre = .ok (s', q) →
        Gdriver.lookup s' q.id (Gdriver.sanitizeName p) = m1 :: m2 :: tl →
        Gdriver.makeDirectoryByParts s root [] (pre ++ p :: post)
          = .error (.multipleEntries (Gdriver.goPathJoin (pre ++ [p])))) := by
  constructor
  · intro s root pre p post ch n1 n2 tl hch hmulti
    have hne : pre ++ p :: post ≠ [] := by simp
    rw [Gdriver.getFileByParts_ne_nil hne]
    have h1 := Gdriver.resolveParts_chain s pre ch root.id [] (p :: post) (by simp) hch
    rw [h1, List.nil_append, Gdriver.resolveParts_lookup_multi pre post hmulti]
    rfl
  · intro s root pre p post s' q m1 m2 tl hmk hmulti
    rw [Gdriver.makeDirectoryByParts_append_ok [] (p :: post) hmk, List.nil_append,
        Gdriver.makeDirectoryByParts_lookup_multi pre post hmulti]

/-- C3 witness: the root has two children named "a"; both Stat("a") and
MakeDirectory("a") fail with the "multiple entries" error for "a". -/
theorem c3_witness :
    Gdriver.getFileByParts Gdriver.c3State Gdriver.sampleRoot ["a"]
        = .error (.multipleEntries (Gdriver.goPathJoin ["a"]))
    ∧ Gdriver.makeDirectoryByParts Gdriver.c3State Gdriver.sampleRoot [] ["a"]
        = .error (.multipleEntries (Gdriver.goPathJoin ["a"])) := by
  constructor
  · exact c3_multiple_entries_never_picked.1 Gdriver.c3State Gdriver.sampleRoot [] "a" [] []
      { id := "a1", name := "a", parents := ["root"], isDir := true, trashed := false }
      { id := "a2", name := "a", parents := ["root"], isDir := true, trashed := false }
      [] (by decide) (by decide)
  · exact c3_multiple_entries_never_picked.2 Gdriver.c3State Gdriver.sampleRoot [] "a" []
      Gdriver.c3State Gdriver.sampleRoot
      { id := "a1", name := "a", parents := ["root"], isDir := true, trashed := false }
      { id := "a2", name := "a", parents := ["root"], isDir := true, trashed := false }
      [] (by decide) (by decide)

/-- C4 counterexample: with a directory "a" under the root, resolving
"a/.." finds zero matches at segment 2 and fails with a NotFound error
carrying "." (the Go path.Join of "a" and ".."), not the slash-joined
two-segment prefix "a/..". -/
theorem c4_counterexample :
    Gdriver.getFile Gdriver.c4State Gdriver.sampleRoot "a/.." = .error (.notFound ".")
    ∧ Gdriver.slashJoin (Gdriver.splitPath "a/..") = "a/.."
    ∧ Gdriver.GErr.notFound "." ≠ Gdriver.GErr.notFound "a/.." := by
  refine ⟨by decide, by decide, by decide⟩

/-- C4 (amended): when resolution misses at a segment — any segment,
including "." and ".." ones — the NotFound error carries the Go
path.Join (the cleaned join) of exactly the walked prefix up to and
including the failing segment, never the full requested path when
further segments follow; and whenever none of those prefix segments is
"." or "..", that path.Join equals the slash-joined prefix. -/
theorem c4_notfound_carries_failing_prefix (s : Gdriver.GState) (root : Gdriver.GNode)
    (pre : List String) (p : String) (post : List String) (ch : List Gdriver.GNode)
    (hch : Gdriver.resolveChainAux s root.id pre = some ch)
    (hmiss : Gdriver.lookup s (Gdriver.lastId root.id ch) (Gdriver.sanitizeName p) = []) :
    Gdriver.getFileByParts s root (pre ++ p :: post)
      = .error (.notFound (Gdriver.goPathJoin (pre ++ [p])))
    ∧ ((∀ q ∈ pre ++ [p], Gdriver.plainSeg q = true) →
        Gdriver.goPathJoin (pre ++ [p]) = Gdriver.slashJoin (pre ++ [p])) := by
  constructor
  · have hne : pre ++ p :: post ≠ [] := by simp
    rw [Gdriver.getFileByParts_ne_nil hne]
    have h1 := Gdriver.resolveParts_chain s pre ch root.id [] (p :: post) (by simp) hch
    rw [h1, List.nil_append, Gdriver.resolveParts_lookup_nil pre post hmiss]
    rfl
  · intro hplain
    exact Gdriver.goPathJoin_plain (pre ++ [p]) (by simp) hplain

/-- C4 witness: in a store where only "a" exists under the root,
resolving ["a", "x"] fails at segment 2 with NotFound carrying the
joined prefix (equal to the slash-join "a/x" since both segments are
plain), and resolving ["a", ".."] also fails at segment 2 with NotFound
carrying the joined prefix, which Clean collapses to ".". -/
theorem c4_witness :
    (Gdriver.getFileByParts Gdriver.c4State Gdriver.sampleRoot ["a", "x"]
        = .error (.notFound (Gdriver.goPathJoin ["a", "x"]))
      ∧ Gdriver.goPathJoin ["a", "x"] = Gdriver.slashJoin ["a", "x"])
    ∧ Gdriver.getFileByParts Gdriver.c4State Gdriver.sampleRoot ["a", ".."]
        = .error (.notFound (Gdriver.goPathJoin ["a", ".."]))
    ∧ Gdriver.goPathJoin ["a", ".."] = "." := by
  have hx := c4_notfound_carries_failing_prefix Gdriver.c4State Gdriver.sampleRoot ["a"] "x" []
    [{ id := "a", name := "a", parents := ["root"], isDir := true, trashed := false }]
    (by decide) (by decide)
  have hdots := c4_notfound_carries_failing_prefix Gdriver.c4State Gdriver.sampleRoot ["a"] ".." []
    [{ id := "a", name := "a", parents := ["root"], isDir := true, trashed := false }]
    (by decide) (by decide)
  exact ⟨⟨hx.1, hx.2 (by decide)⟩, hdots.1, by decide⟩

namespace Gdriver

/-- Preservation of non-empty lookups composes. -/
lemma preservesNonempty_trans {s1 s2 s3 : GState} (h1 : preservesNonempty s1 s2)
    (h2 : preservesNonempty s2 s3) : preservesNonempty s1 s3 := by
  intro pid nm hne
  have e1 := h1 pid nm hne
  have hne2 : lookup s2 pid nm ≠ [] := by rw [e1]; exact hne
  rw [h2 pid nm hne2, e1]

/-- Lookup after a node creation: the old result, plus the new node
exactly when it matches the queried parent and name. -/
lemma lookup_addNode (s : GState) (c : GNode) (pid nm : String) :
    lookup (addNode s c) pid nm
      = lookup s pid nm
        ++ (if (pid ∈ c.parents ∧ c.name = nm) ∧ c.trashed = false then [c] else []) := by
  simp [lookup, addNode, List.filter_append, List.filter_singleton]

/-- Creating a node whose (parent, name) pair had no match preserves
every lookup that already had one. -/
lemma preservesNonempty_addNode {s : GState} {c : GNode} {pid0 : String}
    (hparents : c.parents = [pid0]) (hmiss : lookup s pid0 c.name = []) :
    preservesNonempty s (addNode s c) := by
  intro pid nm hne
  rw [lookup_addNode]
  by_cases hcond : (pid ∈ c.parents ∧ c.name = nm) ∧ c.trashed = false
  · exfalso
    obtain ⟨⟨hmem, hname⟩, _⟩ := hcond
    rw [hparents] at hmem
    have hpid : pid = pid0 := by simpa using hmem
    rw [hpid, ← hname] at hne
    exact hne hmiss
  · rw [if_neg hcond]
    simp

/-- The creation walk only ever adds nodes at (parent, name) pairs that
had no match, so a successful walk preserves all non-empty lookups, and
rerunning the same walk from the produced state changes nothing and
returns the same leaf. -/
lemma makeDirectoryByParts_idem : ∀ (parts : List String) (s : GState) (parent : GNode)
    (walked : List String) (s' : GState) (leaf : GNode),
    makeDirectoryByParts s parent walked parts = .ok (s', leaf) →
    preservesNonempty s s' ∧ makeDirectoryByParts s' parent walked parts = .ok (s', leaf) := by
  intro parts
  induction parts with
  | nil =>
    intro s parent walked s' leaf h
    simp only [makeDirectoryByParts] at h
    injection h with hpair
    injection hpair with hs hleaf
    subst hs
    subst hleaf
    exact ⟨fun pid nm _ => rfl, rfl⟩
  | cons p rest ih =>
    intro s parent walked s' leaf h
    cases hl : lookup s parent.id (sanitizeName p) with
    | nil =>
      cases hdir : parent.isDir with
      | false =>
        rw [makeDirectoryByParts_lookup_nil_notdir walked rest hl hdir] at h
        exact absurd h (by simp)
      | true =>
        rw [makeDirectoryByParts_lookup_nil_dir walked rest hl hdir] at h
        obtain ⟨hpres, hrun⟩ := ih
          (addNode s { id := freshId s, name := sanitizeName p, parents := [parent.id],
                       isDir := true, trashed := false })
          { id := freshId s, name := sanitizeName p, parents := [parent.id],
            isDir := true, trashed := false }
          (walked ++ [p]) s' leaf h
        have hpres0 : preservesNonempty s
            (addNode s { id := freshId s, name := sanitizeName p, parents := [parent.id],
                         isDir := true, trashed := false }) :=
          preservesNonempty_addNode rfl hl
        have hc1 : lookup
            (addNode s { id := freshId s, name := sanitizeName p, parents := [parent.id],
                         isDir := true, trashed := false })
            parent.id (sanitizeName p)
            = [{ id := freshId s, name := sanitizeName p, parents := [parent.id],
                 isDir := true, trashed := false }] := by
          rw [lookup_addNode, hl]
          simp
        have hc2 : lookup s' parent.id (sanitizeName p)
            = [{ id := freshId s, name := sanitizeName p, parents := [parent.id],
                 isDir := true, trashed := false }] := by
          rw [hpres parent.id (sanitizeName p) (by rw [hc1]; simp), hc1]
        refine ⟨preservesNonempty_trans hpres0 hpres, ?_⟩
        rw [makeDirectoryByParts_lookup_single walked rest hc2]
        exact hrun
    | cons n tail =>
      cases tail with
      | nil =>
        rw [makeDirectoryByParts_lookup_single walked rest hl] at h
        obtain ⟨hpres, hrun⟩ := ih s n (walked ++ [p]) s' leaf h
        have hs' : lookup s' parent.id (sanitizeName p) = [n] := by
          rw [hpres parent.id (sanitizeName p) (by rw [hl]; simp), hl]
        refine ⟨hpres, ?_⟩
        rw [makeDirectoryByParts_lookup_single walked rest hs']
        exact hrun
      | cons n2 t2 =>
        rw [makeDirectoryByParts_lookup_multi walked rest hl] at h
        exact absurd h (by simp)

end Gdriver

/-- C5: makeDirectoryByParts is idempotent: after a first successful
invocation produced state s' and leaf node, rerunning the walk with the
same parts from s' performs no creation (the state is returned
unchanged) and yields the same leaf node identity. -/
theorem c5_makeDirectoryByParts_idempotent (s : Gdriver.GState) (root : Gdriver.GNode)
    (parts : List String) (s' : Gdriver.GState) (leaf : Gdriver.GNode)
    (h : Gdriver.makeDirectoryByParts s root [] parts = .ok (s', leaf)) :
    Gdriver.makeDirectoryByParts s' root [] parts = .ok (s', leaf) :=
  (Gdriver.makeDirectoryByParts_idem parts s root [] s' leaf h).2

/-- C5 witness: MakeDirectory("a/b") on the empty store creates two
directories; rerunning it on the resulting store returns the same store
and the same leaf. -/
theorem c5_witness :
    Gdriver.makeDirectoryByParts Gdriver.c5Start Gdriver.sampleRoot [] ["a", "b"]
        = .ok (Gdriver.c5Done, Gdriver.c5Leaf)
    ∧ Gdriver.makeDirectoryByParts Gdriver.c5Done Gdriver.sampleRoot [] ["a", "b"]
        = .ok (Gdriver.c5Done, Gdriver.c5Leaf) :=
  ⟨by decide,
   c5_makeDirectoryByParts_idempotent Gdriver.c5Start Gdriver.sampleRoot ["a", "b"]
     Gdriver.c5Done Gdriver.c5Leaf (by decide)⟩

/-- C6: Rename on a resolved non-root node patches only the name field,
setting it to the sanitized final segment of newName: the other
segments are ignored, every node keeps its parents (so the renamed node
stays at the same parent and no directory is created), the node set and
the id counter are unchanged. -/
theorem c6_rename_uses_last_segment (s : Gdriver.GState) (root : Gdriver.GNode)
    (pathStr newName : String) (n : Gdriver.GNode) (pp : String)
    (hsegs : Gdriver.splitPath newName ≠ [])
    (hres : Gdriver.getFile s root pathStr = .ok (.node n pp))
    (hok : s.failUpdate.contains n.id = false)
    (hget : Gdriver.get s n.id = some n) :
    Gdriver.rename s root pathStr newName
      = .ok ({ s with nodes := s.nodes.map (fun k =>
                 if k.id == n.id then
                   { k with name := Gdriver.sanitizeName ((Gdriver.splitPath newName).getLastD "") }
                 else k) },
             { item := some { n with
                 name := Gdriver.sanitizeName ((Gdriver.splitPath newName).getLastD "") },
               parentPath := pp })
    ∧ (s.nodes.map (fun k =>
         if k.id == n.id then
           { k with name := Gdriver.sanitizeName ((Gdriver.splitPath newName).getLastD "") }
         else k)).map (fun k => k.parents) = s.nodes.map (fun k => k.parents)
    ∧ (s.nodes.map (fun k =>
         if k.id == n.id then
           { k with name := Gdriver.sanitizeName ((Gdriver.splitPath newName).getLastD "") }
         else k)).map (fun k => k.id) = s.nodes.map (fun k => k.id) := by
  have hne : (Gdriver.splitPath newName).isEmpty = false := by
    cases hsp : Gdriver.splitPath newName with
    | nil => exact absurd hsp hsegs
    | cons a l => rfl
  refine ⟨?_, ?_, ?_⟩
  · simp only [Gdriver.rename, hne, Bool.false_eq_true, if_false, hres,
      Gdriver.storeUpdateName, hok, hget]
  · rw [List.map_map]
    apply List.map_congr_left
    intro a _
    by_cases hb : a.id = n.id <;> simp [hb]
  · rw [List.map_map]
    apply List.map_congr_left
    intro a _
    by_cases hb : a.id = n.id <;> simp [hb]

/-- C6 witness: renaming "a" to "x/y/z" keeps the node under the root
and only sets its name to the final segment "z"; no "x" or "y"
directory appears. -/
theorem c6_witness :
    Gdriver.rename Gdriver.c4State Gdriver.sampleRoot "a" "x/y/z"
      = .ok ({ nodes := [{ id := "a", name := "z", parents := ["root"], isDir := true, trashed := false }],
               nextId := 0, failUpdate := [] },
             { item := some { id := "a", name := "z", parents := ["root"], isDir := true, trashed := false },
               parentPath := "" }) := by
  have h := (c6_rename_uses_last_segment Gdriver.c4State Gdriver.sampleRoot "a" "x/y/z"
    { id := "a", name := "a", parents := ["root"], isDir := true, trashed := false } ""
    (by decide) (by decide) (by decide) (by decide)).1
  exact h.trans (by decide)

namespace Gdriver

/-- Lookup after trashing a node id: exactly the old matches whose id
differs (all nodes with that id are now excluded by the trashed = false
clause; other nodes are untouched). -/
lemma lookup_trashNode (s : GState) (nid parentId nm : String) :
    lookup (trashNode s nid) parentId nm
      = (lookup s parentId nm).filter (fun m => m.id != nid) := by
  show (s.nodes.map fun m => if m.id == nid then { m with trashed := true } else m).filter
        (fun n => n.parents.contains parentId && n.name == nm && !n.trashed)
      = (s.nodes.filter fun n => n.parents.contains parentId && n.name == nm && !n.trashed).filter
          (fun m => m.id != nid)
  rw [List.filter_map, List.filter_filter]
  have hcong : ∀ m ∈ s.nodes,
      ((fun n : GNode => n.parents.contains parentId && n.name == nm && !n.trashed) ∘
        (fun m => if m.id == nid then { m with trashed := true } else m)) m
      = (fun m : GNode =>
          m.id != nid && (m.parents.contains parentId && m.name == nm && !m.trashed)) m := by
    intro m _
    by_cases hid : m.id = nid
    · simp [hid]
    · simp [hid]
  rw [List.filter_congr hcong]
  have hmap : ∀ m ∈ s.nodes.filter
      (fun m : GNode => m.id != nid && (m.parents.contains parentId && m.name == nm && !m.trashed)),
      (fun m : GNode => if m.id == nid then { m with trashed := true } else m) m
        = (fun m : GNode => m) m := by
    intro m hm
    have h1 := List.of_mem_filter hm
    rw [Bool.and_eq_true] at h1
    have h2 : m.id ≠ nid := by simpa using h1.1
    simp [h2]
  rw [List.map_congr_left hmap, List.map_id']

/-- Trashing a node not on a resolution chain leaves the chain
intact. -/
lemma resolveChainAux_trashNode (s : GState) (nid : String) :
    ∀ (parts : List String) (parentId : String) (ch : List GNode),
    resolveChainAux s parentId parts = some ch → (∀ m ∈ ch, m.id ≠ nid) →
    resolveChainAux (trashNode s nid) parentId parts = some ch := by
  intro parts
  induction parts with
  | nil =>
    intro parentId ch h _
    exact h
  | cons p rest ih =>
    intro parentId ch h havoid
    obtain ⟨n, ch', hl, hrec, hcons⟩ := resolveChainAux_cons_inv s h
    subst hcons
    have hn : n.id ≠ nid := havoid n (List.mem_cons_self _ _)
    have hl' : lookup (trashNode s nid) parentId (sanitizeName p) = [n] := by
      rw [lookup_trashNode, hl]
      simp [hn]
    rw [resolveChainAux_cons (trashNode s nid) parentId p rest n hl',
        ih n.id ch' hrec (fun m hm => havoid m (List.mem_cons_of_mem n hm))]
    rfl

end Gdriver

/-- C8: after trashing the node a non-root path resolves to, resolving
that path again fails with NotFound (trashed nodes are excluded from
lookups), while the parent prefix still resolves exactly as before, and
the node itself is still present in the store, merely flagged
trashed. -/
theorem c8_trash_hides_path_keeps_parent (s : Gdriver.GState) (root : Gdriver.GNode)
    (pathStr : String) (qParts : List String) (leafSeg : String)
    (ch : List Gdriver.GNode) (n : Gdriver.GNode)
    (hsplit : Gdriver.splitPath pathStr = qParts ++ [leafSeg])
    (hch : Gdriver.resolveChainAux s root.id qParts = some ch)
    (hleaf : Gdriver.lookup s (Gdriver.lastId root.id ch) (Gdriver.sanitizeName leafSeg) = [n])
    (havoid : ∀ m ∈ ch, m.id ≠ n.id)
    (hupd : s.failUpdate.contains n.id = false) :
    Gdriver.trash s root pathStr = .ok (Gdriver.trashNode s n.id)
    ∧ Gdriver.getFile (Gdriver.trashNode s n.id) root pathStr
        = .error (.notFound (Gdriver.goPathJoin (qParts ++ [leafSeg])))
    ∧ Gdriver.getFileByParts (Gdriver.trashNode s n.id) root qParts
        = Gdriver.getFileByParts s root qParts
    ∧ (∃ r, Gdriver.getFileByParts s root qParts = .ok r)
    ∧ { n with trashed := true } ∈ (Gdriver.trashNode s n.id).nodes := by
  have hne : qParts ++ [leafSeg] ≠ [] := by simp
  have hfull : Gdriver.resolveParts s root.id [] (qParts ++ [leafSeg]) = .ok n := by
    rw [Gdriver.resolveParts_chain s qParts ch root.id [] [leafSeg] (by simp) hch,
        List.nil_append]
    exact Gdriver.resolveParts_lookup_single_last qParts hleaf
  have hstat : Gdriver.getFile s root pathStr
      = .ok (.node n (Gdriver.goPathJoin (qParts ++ [leafSeg]).dropLast)) := by
    rw [Gdriver.getFile, hsplit, Gdriver.getFileByParts_ne_nil hne, hfull]
    rfl
  have hch' : Gdriver.resolveChainAux (Gdriver.trashNode s n.id) root.id qParts = some ch :=
    Gdriver.resolveChainAux_trashNode s n.id qParts root.id ch hch havoid
  have hmiss' : Gdriver.lookup (Gdriver.trashNode s n.id) (Gdriver.lastId root.id ch)
      (Gdriver.sanitizeName leafSeg) = [] := by
    rw [Gdriver.lookup_trashNode, hleaf]
    simp
  refine ⟨?_, ?_, ?_, ?_, ?_⟩
  · simp only [Gdriver.trash, hstat, hupd, Bool.false_eq_true, if_false]
  · rw [Gdriver.getFile, hsplit, Gdriver.getFileByParts_ne_nil hne,
        Gdriver.resolveParts_chain (Gdriver.trashNode s n.id) qParts ch root.id [] [leafSeg]
          (by simp) hch',
        List.nil_append, Gdriver.resolveParts_lookup_nil qParts [] hmiss']
    rfl
  · cases hq : qParts with
    | nil => rfl
    | cons q qs =>
      subst hq
      have hchne : ch ≠ [] := by
        intro h0
        rw [h0] at hch
        have hlen := Gdriver.resolveChainAux_length s (q :: qs) root.id [] hch
        simp at hlen
      obtain ⟨m, hm⟩ := Option.isSome_iff_exists.mp (List.getLast?_isSome.mpr hchne)
      have hres1 : Gdriver.resolveParts s root.id [] (q :: qs) = .ok m :=
        Gdriver.resolveParts_of_chain s (q :: qs) root.id [] ch m hch hm
      have hres2 : Gdriver.resolveParts (Gdriver.trashNode s n.id) root.id [] (q :: qs) = .ok m :=
        Gdriver.resolveParts_of_chain (Gdriver.trashNode s n.id) (q :: qs) root.id [] ch m hch' hm
      rw [Gdriver.getFileByParts_ne_nil (show (q :: qs : List String) ≠ [] by simp),
          Gdriver.getFileByParts_ne_nil (show (q :: qs : List String) ≠ [] by simp), hres1, hres2]
  · cases hq : qParts with
    | nil => exact ⟨.root, rfl⟩
    | cons q qs =>
      subst hq
      have hchne : ch ≠ [] := by
        intro h0
        rw [h0] at hch
        have hlen := Gdriver.resolveChainAux_length s (q :: qs) root.id [] hch
        simp at hlen
      obtain ⟨m, hm⟩ := Option.isSome_iff_exists.mp (List.getLast?_isSome.mpr hchne)
      have hres1 : Gdriver.resolveParts s root.id [] (q :: qs) = .ok m :=
        Gdriver.resolveParts_of_chain s (q :: qs) root.id [] ch m hch hm
      refine ⟨.node m (Gdriver.goPathJoin (q :: qs).dropLast), ?_⟩
      rw [Gdriver.getFileByParts_ne_nil (show (q :: qs : List String) ≠ [] by simp), hres1]
      rfl
  · have hmem : n ∈ s.nodes := by
      have hn : n ∈ Gdriver.lookup s (Gdriver.lastId root.id ch) (Gdriver.sanitizeName leafSeg) := by
        rw [hleaf]
        exact List.mem_singleton.mpr rfl
      exact List.mem_of_mem_filter hn
    have himg : (if n.id == n.id then { n with trashed := true } else n)
        ∈ (Gdriver.trashNode s n.id).nodes := List.mem_map_of_mem _ hmem
    simpa using himg

/-- C8 witness: after Trash("Folder1/File1"), Stat("Folder1/File1")
fails with NotFound while Stat of the parent prefix ["Folder1"] is
unchanged (hence still succeeds), and the trashed node still exists. -/
theorem c8_witness :
    Gdriver.trash Gdriver.c8State Gdriver.sampleRoot "Folder1/File1"
        = .ok (Gdriver.trashNode Gdriver.c8State "x")
    ∧ Gdriver.getFile (Gdriver.trashNode Gdriver.c8State "x") Gdriver.sampleRoot "Folder1/File1"
        = .error (.notFound (Gdriver.goPathJoin ["Folder1", "File1"]))
    ∧ Gdriver.getFileByParts (Gdriver.trashNode Gdriver.c8State "x") Gdriver.sampleRoot ["Folder1"]
        = Gdriver.getFileByParts Gdriver.c8State Gdriver.sampleRoot ["Folder1"] := by
  obtain ⟨h1, h2, h3, _, _⟩ := c8_trash_hides_path_keeps_parent Gdriver.c8State Gdriver.sampleRoot
    "Folder1/File1" ["Folder1"] "File1"
    [{ id := "f1", name := "Folder1", parents := ["root"], isDir := true, trashed := false }]
    { id := "x", name := "File1", parents := ["f1"], isDir := false, trashed := false }
    (by decide) (by decide) (by decide) (by decide) (by decide)
  exact ⟨h1, h2, h3⟩

namespace Gdriver

/-- With a closed, rank-acyclic store and enough fuel, the `isInRoot`
walk always terminates with a verdict (no fuel exhaustion, no
`Files.Get` failure). -/
lemma isInRoot_total (s : GState) (rid : String) (rank : String → Nat)
    (hc : Closed s) (hr : Ranked s rank) :
    ∀ (fuel : Nat) (f : GNode) (base : String), f ∈ s.nodes → rank f.id < fuel →
      ∃ b p, isInRootFuel s rid fuel f base = some (.ok (b, p)) := by
  intro fuel
  induction fuel using Nat.strong_induction_on with
  | _ fuel IH =>
    cases fuel with
    | zero =>
      intro f base _ hrank
      exact absurd hrank (Nat.not_lt_zero _)
    | succ m =>
      intro f base hf hrank
      show ∃ b p, isInRootGoAux s rid (isInRootFuel s rid m) f.parents base = some (.ok (b, p))
      have go : ∀ (pids : List String), (∀ x ∈ pids, x ∈ f.parents) →
          ∃ b p, isInRootGoAux s rid (isInRootFuel s rid m) pids base = some (.ok (b, p)) := by
        intro pids
        induction pids with
        | nil => exact fun _ => ⟨false, "", rfl⟩
        | cons pid rest ihp =>
          intro hsub
          by_cases hpid : pid = rid
          · exact ⟨true, base, by simp [isInRootGoAux, hpid]⟩
          · have hmem : pid ∈ f.parents := hsub pid (List.mem_cons_self _ _)
            have hget := hc f hf pid hmem
            obtain ⟨parent, hpar⟩ := Option.isSome_iff_exists.mp hget
            have hparmem : parent ∈ s.nodes := List.mem_of_find?_eq_some hpar
            have hparid : parent.id = pid := by
              have := List.find?_some hpar
              simpa using this
            have hrank2 : rank parent.id < m := by
              have := hr f hf pid hmem
              rw [hparid]
              omega
            obtain ⟨b', p', hb'⟩ :=
              IH m (Nat.lt_succ_self m) parent (goPathJoin [parent.name, base]) hparmem hrank2
            cases b' with
            | true => exact ⟨true, p', by simp [isInRootGoAux, hpid, hpar, hb']⟩
            | false =>
              obtain ⟨b, p, hbp⟩ := ihp (fun x hx => hsub x (List.mem_cons_of_mem _ hx))
              exact ⟨b, p, by simp [isInRootGoAux, hpid, hpar, hb', hbp]⟩
      exact go f.parents (fun x hx => hx)

/-- A true verdict of the `isInRoot` walk means the node really
descends from the searched id. -/
lemma isInRoot_sound (s : GState) (rid : String) :
    ∀ (fuel : Nat) (f : GNode) (base p : String),
      isInRootFuel s rid fuel f base = some (.ok (true, p)) → Reaches s rid f := by
  intro fuel
  induction fuel using Nat.strong_induction_on with
  | _ fuel IH =>
    cases fuel with
    | zero =>
      intro f base p h
      simp [isInRootFuel] at h
    | succ m =>
      intro f base p h
      replace h : isInRootGoAux s rid (isInRootFuel s rid m) f.parents base = some (.ok (true, p)) := h
      have go : ∀ (pids : List String) (base' p' : String), (∀ x ∈ pids, x ∈ f.parents) →
          isInRootGoAux s rid (isInRootFuel s rid m) pids base' = some (.ok (true, p')) → Reaches s rid f := by
        intro pids
        induction pids with
        | nil =>
          intro base' p' _ hgo
          simp [isInRootGoAux] at hgo
        | cons pid rest ihp =>
          intro base' p' hsub hgo
          by_cases hpid : pid = rid
          · exact Reaches.direct (hsub pid (List.mem_cons_self _ _)) hpid
          · cases hget : get s pid with
            | none => simp [isInRootGoAux, hpid, hget] at hgo
            | some parent =>
              cases hrec : isInRootFuel s rid m parent (goPathJoin [parent.name, base']) with
              | none => simp [isInRootGoAux, hpid, hget, hrec] at hgo
              | some r =>
                cases r with
                | error e => simp [isInRootGoAux, hpid, hget, hrec] at hgo
                | ok bp =>
                  obtain ⟨b, pp⟩ := bp
                  cases b with
                  | true =>
                    have hreach := IH m (Nat.lt_succ_self m) parent _ pp hrec
                    exact Reaches.step (hsub pid (List.mem_cons_self _ _)) hget hreach
                  | false =>
                    have h' : isInRootGoAux s rid (isInRootFuel s rid m) rest base' = some (.ok (true, p')) := by
                      simpa [isInRootGoAux, hpid, hget, hrec] using hgo
                    exact ihp base' p' (fun x hx => hsub x (List.mem_cons_of_mem _ hx)) h'
      exact go f.parents base p (fun x hx => hx) h

/-- A false verdict of the `isInRoot` walk means the node does not
descend from the searched id. -/
lemma isInRoot_false (s : GState) (rid : String) :
    ∀ (fuel : Nat) (f : GNode) (base p : String),
      isInRootFuel s rid fuel f base = some (.ok (false, p)) → ¬ Reaches s rid f := by
  intro fuel
  induction fuel using Nat.strong_induction_on with
  | _ fuel IH =>
    cases fuel with
    | zero =>
      intro f base p h
      simp [isInRootFuel] at h
    | succ m =>
      intro f base p h
      replace h : isInRootGoAux s rid (isInRootFuel s rid m) f.parents base = some (.ok (false, p)) := h
      have go : ∀ (pids : List String) (base' p' : String),
          isInRootGoAux s rid (isInRootFuel s rid m) pids base' = some (.ok (false, p')) →
          ∀ pid ∈ pids, pid ≠ rid ∧
            ∀ parent, get s pid = some parent → ¬ Reaches s rid parent := by
        intro pids
        induction pids with
        | nil =>
          intro base' p' _ pid hpid
          exact absurd hpid (List.not_mem_nil _)
        | cons pid0 rest ihp =>
          intro base' p' hgo pid hpidmem
          by_cases hpid : pid0 = rid
          · simp [isInRootGoAux, hpid] at hgo
          · cases hget : get s pid0 with
            | none => simp [isInRootGoAux, hpid, hget] at hgo
            | some parent =>
              cases hrec : isInRootFuel s rid m parent (goPathJoin [parent.name, base']) with
              | none => simp [isInRootGoAux, hpid, hget, hrec] at hgo
              | some r =>
                cases r with
                | error e => simp [isInRootGoAux, hpid, hget, hrec] at hgo
                | ok bp =>
                  obtain ⟨b, pp⟩ := bp
                  cases b with
                  | true => simp [isInRootGoAux, hpid, hget, hrec] at hgo
                  | false =>
                    have h' : isInRootGoAux s rid (isInRootFuel s rid m) rest base' = some (.ok (false, p')) := by
                      simpa [isInRootGoAux, hpid, hget, hrec] using hgo
                    rcases List.mem_cons.mp hpidmem with heq | hmem
                    · subst heq
                      refine ⟨hpid, ?_⟩
                      intro parent' hg
                      rw [hget] at hg
                      injection hg with hg
                      subst hg
                      exact IH m (Nat.lt_succ_self m) parent _ pp hrec
                    · exact ihp base' p' h' pid hmem
      intro hR
      cases hR with
      | direct hmem heq => exact ((go f.parents base p h _ hmem).1) heq
      | step hmem hget hr => exact ((go f.parents base p h _ hmem).2) _ hget hr

/-- With a total `isInRoot` verdict available for every listed node,
the trash-visiting loop succeeds and visits exactly the nodes the walk
answers true for, in listing order. -/
lemma listTrashVisits_filter (s : GState) (scopeId scopePath : String) (fuel : Nat) :
    ∀ (tl : List GNode),
      (∀ t ∈ tl, ∃ b p, isInRootFuel s scopeId fuel t "" = some (.ok (b, p))) →
      ∃ vs, listTrashVisits s scopeId scopePath fuel tl = some (.ok vs)
        ∧ vs.map Prod.fst = tl.filter (fun t => isInRootBool s scopeId fuel t) := by
  intro tl
  induction tl with
  | nil => exact fun _ => ⟨[], rfl, rfl⟩
  | cons t rest ih =>
    intro htot
    obtain ⟨b, p, hbp⟩ := htot t (List.mem_cons_self _ _)
    obtain ⟨vs, hvs, hmap⟩ := ih (fun x hx => htot x (List.mem_cons_of_mem _ hx))
    cases b with
    | false =>
      refine ⟨vs, ?_, ?_⟩
      · simp [listTrashVisits, hbp, hvs]
      · have hb : isInRootBool s scopeId fuel t = false := by simp [isInRootBool, hbp]
        simp [List.filter_cons, hb, hmap]
    | true =>
      refine ⟨(t, goPathJoin [scopePath, p]) :: vs, ?_, ?_⟩
      · simp [listTrashVisits, hbp, hvs]
      · have hb : isInRootBool s scopeId fuel t = true := by simp [isInRootBool, hbp]
        simp [List.filter_cons, hb, hmap]

/-- Under totality conditions the boolean verdict of the walk agrees
with the descends-from relation. -/
lemma isInRootBool_iff (s : GState) (rid : String) (rank : String → Nat)
    (hc : Closed s) (hr : Ranked s rank) (fuel : Nat) (t : GNode)
    (ht : t ∈ s.nodes) (hfuel : rank t.id < fuel) :
    (isInRootBool s rid fuel t = true ↔ Reaches s rid t) := by
  obtain ⟨b, p, hbp⟩ := isInRoot_total s rid rank hc hr fuel t "" ht hfuel
  cases b with
  | true =>
    constructor
    · intro _
      exact isInRoot_sound s rid fuel t "" p hbp
    · intro _
      simp [isInRootBool, hbp]
  | false =>
    constructor
    · intro hb
      rw [isInRootBool, hbp] at hb
      simp at hb
    · intro hR
      exact absurd hR (isInRoot_false s rid fuel t "" p hbp)

end Gdriver

/-- C7: for a scope path that resolves, ListTrash succeeds and invokes
the callback exactly on the globally trashed nodes whose parent chain
reaches the scope node (in listing order); the walk verdict coincides
with the descends-from relation, trashed nodes outside the scope
subtree are silently skipped, and any reordering of the global trash
listing yields a permutation of the same visited nodes. -/
theorem c7_listTrash_exactly_trashed_descendants (s : Gdriver.GState) (root : Gdriver.GNode)
    (pathStr : String) (fuel : Nat) (rank : String → Nat) (r : Gdriver.Resolved)
    (hres : Gdriver.getFile s root pathStr = .ok r)
    (hc : Gdriver.Closed s) (hr : Gdriver.Ranked s rank)
    (hfuel : ∀ t ∈ s.nodes, rank t.id < fuel) :
    ∃ vs, Gdriver.listTrash s root pathStr fuel = some (.ok vs)
      ∧ vs.map Prod.fst = (Gdriver.trashListing s).filter
          (fun t => Gdriver.isInRootBool s (Gdriver.resolvedId root r) fuel t)
      ∧ (∀ t ∈ Gdriver.trashListing s,
          (Gdriver.isInRootBool s (Gdriver.resolvedId root r) fuel t = true
            ↔ Gdriver.Reaches s (Gdriver.resolvedId root r) t))
      ∧ ∀ tl', tl'.Perm (Gdriver.trashListing s) →
          ∃ vs', Gdriver.listTrashVisits s (Gdriver.resolvedId root r)
              (Gdriver.resolvedPath root r) fuel tl' = some (.ok vs')
            ∧ (vs'.map Prod.fst).Perm (vs.map Prod.fst) := by
  have hmemnodes : ∀ t ∈ Gdriver.trashListing s, t ∈ s.nodes := by
    intro t ht
    exact List.mem_of_mem_filter ht
  have htot : ∀ t ∈ Gdriver.trashListing s,
      ∃ b p, Gdriver.isInRootFuel s (Gdriver.resolvedId root r) fuel t "" = some (.ok (b, p)) := by
    intro t ht
    exact Gdriver.isInRoot_total s (Gdriver.resolvedId root r) rank hc hr fuel t ""
      (hmemnodes t ht) (hfuel t (hmemnodes t ht))
  obtain ⟨vs, hvs, hmap⟩ := Gdriver.listTrashVisits_filter s (Gdriver.resolvedId root r)
    (Gdriver.resolvedPath root r) fuel (Gdriver.trashListing s) htot
  refine ⟨vs, ?_, hmap, ?_, ?_⟩
  · simp only [Gdriver.listTrash, hres]
    exact hvs
  · intro t ht
    exact Gdriver.isInRootBool_iff s (Gdriver.resolvedId root r) rank hc hr fuel t
      (hmemnodes t ht) (hfuel t (hmemnodes t ht))
  · intro tl' hperm
    have htot' : ∀ t ∈ tl',
        ∃ b p, Gdriver.isInRootFuel s (Gdriver.resolvedId root r) fuel t "" = some (.ok (b, p)) := by
      intro t ht
      exact htot t (hperm.mem_iff.mp ht)
    obtain ⟨vs', hvs', hmap'⟩ := Gdriver.listTrashVisits_filter s (Gdriver.resolvedId root r)
      (Gdriver.resolvedPath root r) fuel tl' htot'
    refine ⟨vs', hvs', ?_⟩
    rw [hmap, hmap']
    exact hperm.filter _

/-- C7 witness: with Folder1 under the root, a trashed File1 inside
Folder1 and a trashed File2 directly under the root,
ListTrash("Folder1") visits exactly File1. -/
theorem c7_witness :
    ∃ vs, Gdriver.listTrash Gdriver.c7State Gdriver.sampleRoot "Folder1" 3 = some (.ok vs)
      ∧ vs.map Prod.fst
          = [{ id := "x", name := "File1", parents := ["f1"], isDir := false, trashed := true }] := by
  obtain ⟨vs, h1, h2, _, _⟩ := c7_listTrash_exactly_trashed_descendants Gdriver.c7State
    Gdriver.sampleRoot "Folder1" 3 Gdriver.c7Rank
    (.node { id := "f1", name := "Folder1", parents := ["root"], isDir := true, trashed := false } "")
    (by decide) (by decide) (by decide) (by decide)
  refine ⟨vs, h1, ?_⟩
  rw [h2]
  decide
